import Mathlib

/-!
Shallow embedding of the layout-to-interval matching engine of the
`swissgeol-boreholes-dataextraction` repository:

* `src/stratigraphy/main.py` (scoring, pairing, reconciliation, locator),
* `src/stratigraphy/util/util.py` (geometry utilities),
* `src/stratigraphy/depthcolumn/depthcolumnentry.py` (depth entities),
* `src/stratigraphy/benchmark/metrics.py` (dataset metrics).

Conventions: Python floats are modelled as exact rationals (`ℚ`); Python
lists as `List`; fallible Python code (exceptions such as `ValueError` from
`min([])`, `IndexError` from indexing, `AssertionError` from `assert`) is
modelled with `Except PyError`.  External collaborator types that are not
part of the four source files (`fitz.Rect`, `TextLine`, `TextBlock`,
`DepthColumn`, `Interval`, `Metrics`, `block_distance`) are modelled from the
spec's data-model section; `block_distance` is kept abstract (a function
parameter), exactly as the spec's external-interface section describes it.
-/

namespace Strat

/-- Kinds of failures.  `valueError`, `indexError` and `assertionError` model
the Python exceptions actually raised by the embedded code.
`validationError` and `preconditionError` are the error kinds named by the
spec's error-handling section; they are part of the error vocabulary so that
statements about them can be expressed, but no embedded function produces
them. -/
inductive PyError where
  | valueError
  | indexError
  | assertionError
  | validationError
  | preconditionError
deriving DecidableEq, Repr

/-- Modelled from the spec: axis-aligned box `(x0, y0, x1, y1)` in page
coordinates (the shape of `fitz.Rect`). -/
structure Rect where
  x0 : ℚ
  y0 : ℚ
  x1 : ℚ
  y1 : ℚ
deriving DecidableEq, Repr

/-- Derived width of a rect, as used by `util.py` via `rect.width`. -/
def Rect.width (r : Rect) : ℚ := r.x1 - r.x0

/-- Modelled from the spec: `fitz.Rect.intersects` — the two rects have a
non-empty rectangle in common. -/
def Rect.intersects (r s : Rect) : Bool :=
  decide (max r.x0 s.x0 < min r.x1 s.x1 ∧ max r.y0 s.y0 < min r.y1 s.y1)

/-- Modelled from the spec: a `TextLine` exposes a bounding rect and a
"looks like a description" classification (external capability). -/
structure TextLine where
  rect : Rect
  is_description : Bool
deriving DecidableEq, Repr

/-- Modelled from the spec: a `TextBlock` is an ordered sequence of
`TextLine` with a `terminated_by_line` flag. -/
structure TextBlock where
  lines : List TextLine
  is_terminated_by_line : Bool
deriving DecidableEq, Repr

/-- Modelled from the spec: `TextBlock.concatenate` combines the lines of two
blocks into a fresh block (fresh blocks carry the default flag). -/
def TextBlock.concatenate (a b : TextBlock) : TextBlock :=
  ⟨a.lines ++ b.lines, false⟩

/-- Number of lines of a block (`TextBlock.line_count`). -/
def TextBlock.line_count (b : TextBlock) : ℕ := b.lines.length

/-- Total number of text lines across a list of blocks. -/
def totalLines (blocks : List TextBlock) : ℕ :=
  (blocks.map (fun b => b.lines.length)).sum

/-- Modelled from the spec: an `Interval` is a depth range with optional
start and end values (the field `end` is a Lean keyword, renamed `stop`). -/
structure Interval where
  start : Option ℚ
  stop : Option ℚ
deriving DecidableEq, Repr

/-- Output unit of `transform_groups`: the Python dictionary
`{"depth_interval": ..., "block": ...}`. -/
structure MatchResult where
  depth_interval : Interval
  block : TextBlock
deriving DecidableEq, Repr

/-- Modelled from the spec: a `DepthColumn` exposes an overall bounding rect
and the rects of its own entries (used for the noise count). -/
structure DepthColumn where
  rect : Rect
  entry_rects : List Rect
deriving DecidableEq, Repr

/-- Modelled from the spec: `DepthColumn.noise_count(words)` is the count of
words intersecting the column's rect that are not part of its own entries. -/
def DepthColumn.noise_count (depth_column : DepthColumn) (all_words : List TextLine) : ℕ :=
  (all_words.filter (fun w =>
    w.rect.intersects depth_column.rect && decide (w.rect ∉ depth_column.entry_rects))).length

/-- From `depthcolumnentry.py`: a depth column entry (rect, value, page). -/
structure DepthColumnEntry where
  rect : Rect
  value : ℚ
  page_number : ℕ
deriving DecidableEq, Repr

/-- From `depthcolumnentry.py`: a layer depth column entry; the source field
`end` is a Lean keyword and is renamed `stop`. -/
structure LayerDepthColumnEntry where
  start : DepthColumnEntry
  stop : DepthColumnEntry
deriving DecidableEq, Repr

/-- Constructor of `LayerDepthColumnEntry`: the `__init__` stores both
entries and then runs
`assert start.page_number == end.page_number`, so a mismatch raises a Python
`AssertionError` and nothing is returned. -/
def LayerDepthColumnEntry.make (start stop : DepthColumnEntry) :
    Except PyError LayerDepthColumnEntry :=
  if start.page_number = stop.page_number then .ok ⟨start, stop⟩
  else .error .assertionError

/-- Modelled from the spec: a per-document `Metrics` record exposing `f1`,
`precision` and `recall`. -/
structure Metrics where
  f1 : ℚ
  precision : ℚ
  recall_value : ℚ
deriving DecidableEq, Repr

/-- From `metrics.py`: `DatasetMetrics` keeps a mapping from document name to
`Metrics`, modelled as an association list. -/
structure DatasetMetrics where
  metrics : List (String × Metrics)

/-- From `metrics.py`, the method `macro_f1` (renamed, the source name begins
with a Lean keyword): returns the average of the per-document `f1` values,
and `0` when the mapping is empty (Python truthiness of the dict). -/
def DatasetMetrics.avg_f1 (dm : DatasetMetrics) : ℚ :=
  if dm.metrics.isEmpty then 0
  else ((dm.metrics.map (fun kv => kv.2.f1)).sum) / dm.metrics.length

/-- From `metrics.py`, the method `macro_precision` (renamed as above). -/
def DatasetMetrics.avg_precision (dm : DatasetMetrics) : ℚ :=
  if dm.metrics.isEmpty then 0
  else ((dm.metrics.map (fun kv => kv.2.precision)).sum) / dm.metrics.length

/-- From `metrics.py`, the method `macro_recall` (renamed as above). -/
def DatasetMetrics.avg_recall (dm : DatasetMetrics) : ℚ :=
  if dm.metrics.isEmpty then 0
  else ((dm.metrics.map (fun kv => kv.2.recall_value)).sum) / dm.metrics.length

/-- From `util.py`: horizontal overlap length of two rects, `0` if disjoint. -/
def x_overlap (rect1 rect2 : Rect) : ℚ :=
  if rect1.x0 < rect2.x1 ∧ rect2.x0 < rect1.x1 then
    min rect1.x1 rect2.x1 - max rect1.x0 rect2.x0
  else 0

/-- From `util.py`: the overlap exceeds `level` times the smaller width. -/
def x_overlap_significant_smallest (rect1 rect2 : Rect) (level : ℚ) : Bool :=
  decide (x_overlap rect1 rect2 > level * min rect1.width rect2.width)

/-- Python `min` over a list: raises `ValueError` on an empty list. -/
def pyMin (l : List ℚ) : Except PyError ℚ :=
  match l.min? with
  | none => .error .valueError
  | some v => .ok v

/-- Python `max` over a list: raises `ValueError` on an empty list. -/
def pyMax (l : List ℚ) : Except PyError ℚ :=
  match l.max? with
  | none => .error .valueError
  | some v => .ok v

/-- Python list indexing `l[i]` with negative-index wrap-around; raises
`IndexError` when out of range. -/
def pyIndex {α : Type} (l : List α) (i : ℤ) : Except PyError α :=
  if (if i < 0 then i + l.length else i) < 0 then .error .indexError
  else
    match l.get? (if i < 0 then i + l.length else i).toNat with
    | some a => .ok a
    | none => .error .indexError

/-- From `main.py` lines 182-205, `score_column_match`: the geometric score
of a (depth column, material description rect) pair.  The Python parameter
`all_words` defaults to `None` and is tested by truthiness, so both `None`
and an empty word list yield a noise count of `0`. -/
def score_column_match (depth_column : DepthColumn) (material_description_rect : Rect)
    (all_words : Option (List TextLine)) : ℚ :=
  let rect := depth_column.rect
  let top := rect.y0
  let bottom := rect.y1
  let right := rect.x1
  let distance :=
    |top - material_description_rect.y0|
      + |bottom - material_description_rect.y1|
      + |right - material_description_rect.x0|
  let height := bottom - top
  let noise_count : ℕ :=
    match all_words with
    | some ws => if ws.isEmpty then 0 else depth_column.noise_count ws
    | none => 0
  (height - distance) * (4 / 5 : ℚ) ^ noise_count

/-- Follows the spec's words (section 4.3): `noise = column.noiseCount(words)`
(`0` if words unavailable).  This is the spec-side noise definition that the
code's truthiness test is compared against. -/
def spec_noise (depth_column : DepthColumn) (all_words : Option (List TextLine)) : ℕ :=
  match all_words with
  | none => 0
  | some ws => depth_column.noise_count ws

/-- A (depth column, material description rect) pair as built by
`process_page` (main.py lines 87-91). -/
structure ColumnPair where
  column : DepthColumn
  region : Rect
deriving DecidableEq, Repr

/-- Sort key used at main.py line 94. -/
def pair_score (all_words : List TextLine) (p : ColumnPair) : ℚ :=
  score_column_match p.column p.region (some all_words)

/-- From `main.py` lines 93-102: sort the pairs ascending by score, mark a
pair for deletion when a later (that is, not-lower-scoring) pair has an
intersecting region, and keep the unmarked pairs in order.  The Python code
builds an index list `to_delete` and filters by index; keeping an indexed
pair exactly when no later pair intersects it is the same filter. -/
def filtered_pairs (all_words : List TextLine) (pairs : List ColumnPair) : List ColumnPair :=
  let sorted := List.insertionSort
    (fun a b => pair_score all_words a ≤ pair_score all_words b) pairs
  (sorted.enum.filter (fun ip =>
    !((sorted.drop (ip.1 + 1)).any (fun q => ip.2.region.intersects q.region)))).map
    (fun ip => ip.2)

/-- Loop body of `merge_blocks_by_vertical_spacing` (main.py lines 280-296):
`rest` holds the not-yet-visited blocks `blocks[i+1:]`, `prev` is the
previous original block `blocks[i]` (distances are measured between original
blocks), `current` is the accumulating merged block and `cnt` the number of
merges performed so far.  The final accumulator is flushed only when it has
lines. -/
def mergeStep (d : TextBlock → TextBlock → ℚ) (cutoff : ℚ) (target : ℕ) :
    List TextBlock → TextBlock → TextBlock → ℕ → List TextBlock
  | [], current, _prev, _cnt => if current.lines.isEmpty then [] else [current]
  | nb :: rest, current, prev, cnt =>
    if cnt < target ∧ d prev nb ≤ cutoff then
      mergeStep d cutoff target rest (current.concatenate nb) nb (cnt + 1)
    else
      current :: mergeStep d cutoff target rest nb nb cnt

/-- From `main.py` lines 262-297, `merge_blocks_by_vertical_spacing`.  The
external `block_distance` function is the parameter `d` (the spec lists it as
an external input contract).  `cutoff` is
`sorted(distances)[target_merge_count - 1]`, a fallible Python indexing. -/
def merge_blocks_by_vertical_spacing (d : TextBlock → TextBlock → ℚ)
    (blocks : List TextBlock) (target_merge_count : ℕ) : Except PyError (List TextBlock) :=
  let distances := List.zipWith d blocks blocks.tail
  match pyIndex (List.insertionSort (· ≤ ·) distances) ((target_merge_count : ℤ) - 1) with
  | .error e => .error e
  | .ok cutoff =>
    match blocks with
    | [] => .error .indexError
    | b :: rest => .ok (mergeStep d cutoff target_merge_count rest b b 0)

/-- Inner loop of `split_blocks_by_textline_length` over one block's lines
(main.py lines 322-332): lines accumulate into `current`; a line that is not
the last of its block and whose `x1` is among the remaining cutoff values
closes the current output block and consumes that cutoff value
(`cutoff_values.remove`, first occurrence); at the end of the block a
non-empty accumulator is flushed. -/
def splitOneBlock : List TextLine → List TextLine → List ℚ → List TextBlock × List ℚ
  | [], current, cutoff_values =>
    (if current.isEmpty then [] else [⟨current, false⟩], cutoff_values)
  | l :: rest, current, cutoff_values =>
    if ¬ rest.isEmpty ∧ l.rect.x1 ∈ cutoff_values then
      let r := splitOneBlock rest [] (cutoff_values.erase l.rect.x1)
      (⟨current ++ [l], false⟩ :: r.1, r.2)
    else
      splitOneBlock rest (current ++ [l]) cutoff_values

/-- Outer loop of `split_blocks_by_textline_length` (main.py lines 322-336):
blocks are processed in order against the shared list of remaining cutoff
values; after a block flagged `is_terminated_by_line`, the flag is set on the
last output block so far (`split_blocks[-1]`), which raises `IndexError` when
no output block has been produced yet. -/
def splitBlocksLoop : List TextBlock → List ℚ → List TextBlock → Except PyError (List TextBlock)
  | [], _cutoff_values, acc => .ok acc
  | b :: rest, cutoff_values, acc =>
    let r := splitOneBlock b.lines [] cutoff_values
    let acc2 := acc ++ r.1
    if b.is_terminated_by_line then
      match acc2.getLast? with
      | none => .error .indexError
      | some last =>
        splitBlocksLoop rest r.2 (acc2.dropLast ++ [{ last with is_terminated_by_line := true }])
    else
      splitBlocksLoop rest r.2 acc2

/-- From `main.py` lines 300-337, `split_blocks_by_textline_length`:
`line_lengths` gathers the sorted `x1` of every line except the last of each
block; when there are at most `target_split_count` of them the blocks degrade
to one block per line, otherwise the `target_split_count` smallest values
become the cutoff multiset driving the walk. -/
def split_blocks_by_textline_length (blocks : List TextBlock) (target_split_count : ℕ) :
    Except PyError (List TextBlock) :=
  let line_lengths := List.insertionSort (· ≤ ·)
    ((blocks.map (fun b => b.lines.dropLast.map (fun l => l.rect.x1))).flatten)
  if line_lengths.length ≤ target_split_count then
    .ok ((blocks.map (fun b => b.lines.map (fun l => (⟨[l], false⟩ : TextBlock)))).flatten)
  else
    splitBlocksLoop blocks (line_lengths.take target_split_count) []

/-- State of the shared cutoff-value list after the outer split loop has
processed a list of blocks (used to state the conservation lemmas). -/
def splitRemaining (blocks : List TextBlock) (cutoff_values : List ℚ) : List ℚ :=
  blocks.foldl (fun cs b => (splitOneBlock b.lines [] cs).2) cutoff_values

/-- From `main.py` lines 224-259, `transform_groups`: reconcile the number of
text blocks with the number of depth intervals and zip them positionally.
The external `block_distance` used by the merge step is the parameter `d`. -/
def transform_groups (d : TextBlock → TextBlock → ℚ)
    (depth_intervals : List Interval) (blocks : List TextBlock) :
    Except PyError (List MatchResult) :=
  match depth_intervals with
  | [] => .ok []
  | [di] =>
    .ok [⟨di, ⟨(blocks.map (fun b => b.lines)).flatten, false⟩⟩]
  | _ :: _ :: _ =>
    match (if blocks.length < depth_intervals.length then
        split_blocks_by_textline_length blocks (depth_intervals.length - blocks.length)
      else .ok blocks) with
    | .error e => .error e
    | .ok blocks1 =>
      match (if blocks1.length > depth_intervals.length then
          merge_blocks_by_vertical_spacing d blocks1 (blocks1.length - depth_intervals.length)
        else .ok blocks1) with
      | .error e => .error e
      | .ok blocks2 =>
        .ok (List.zipWith (fun di b => MatchResult.mk di b) depth_intervals blocks2)

/-- From `main.py` lines 364-367: the coverage of a generating line over the
remaining description pool — the pool lines with a significant x-overlap
(at least half the smaller width) against the generating line. -/
def coverage_of (l : TextLine) (pool : List TextLine) : List TextLine :=
  pool.filter (fun other => x_overlap_significant_smallest l.rect other.rect (1 / 2))

/-- From `main.py` lines 369-378, `filter_coverage`: keep coverage members
left of the threshold `max_x1 - 0.4 * (max_x1 - min_x0)`; an empty coverage
yields the empty list (that branch is explicitly guarded in the source). -/
def filter_coverage (coverage : List TextLine) : List TextLine :=
  match pyMin (coverage.map (fun l => l.rect.x0)), pyMax (coverage.map (fun l => l.rect.x1)) with
  | .ok min_x0, .ok max_x1 =>
    let x0_threshold := max_x1 - (2 / 5) * (max_x1 - min_x0)
    coverage.filter (fun l => decide (l.rect.x0 < x0_threshold))
  | _, _ => []

/-- From `main.py` lines 401-406 inside `find_material_description_column`:
the cluster's good lines — the candidate lines whose vertical span falls
inside the cluster's and whose `x0` lies in the admission window. -/
def good_lines_of (candidate_description : List TextLine)
    (best_y0 best_y1 min_description_x0 max_description_x0 : ℚ) : List TextLine :=
  candidate_description.filter (fun l =>
    decide (l.rect.y0 ≥ best_y0 ∧ l.rect.y1 ≤ best_y1
      ∧ min_description_x0 < l.rect.x0 ∧ l.rect.x0 < max_description_x0))

/-- Continuation of the per-cluster computation: reductions over the good
lines (main.py lines 407-408). -/
def best_x_bounds (good_lines : List TextLine) : Except PyError (List TextLine × ℚ × ℚ) :=
  match pyMin (good_lines.map (fun l => l.rect.x0)) with
  | .error e => .error e
  | .ok best_x0 =>
    match pyMax (good_lines.map (fun l => l.rect.x1)) with
    | .error e => .error e
    | .ok best_x1 => .ok (good_lines, best_x0, best_x1)

/-- Per-cluster bounding computation of `find_material_description_column`
(main.py lines 385-408), with each Python `min`/`max` reduction modelled as
the fallible `pyMin`/`pyMax`; none of them is guarded in the source. -/
def cluster_bounds (candidate_description : List TextLine) (cluster : List TextLine) :
    Except PyError (List TextLine × ℚ × ℚ) :=
  match pyMin (cluster.map (fun l => l.rect.y0)) with
  | .error e => .error e
  | .ok best_y0 =>
    match pyMax (cluster.map (fun l => l.rect.y1)) with
    | .error e => .error e
    | .ok best_y1 =>
      match pyMin (cluster.map (fun l => l.rect.x0 - (1 / 100) * l.rect.width)) with
      | .error e => .error e
      | .ok min_description_x0 =>
        match pyMax (cluster.map (fun l => l.rect.x0 + (1 / 5) * l.rect.width)) with
        | .error e => .error e
        | .ok max_description_x0 =>
          best_x_bounds
            (good_lines_of candidate_description best_y0 best_y1
              min_description_x0 max_description_x0)

/-! ### Scoring: helper lemma and claims C6, C5 -/

/-- Evaluation of `score_column_match` with a supplied word list: the Python
truthiness test (`if all_words:`) agrees with the plain noise count because
the noise count of an empty word list is `0`. -/
theorem score_column_match_some (depth_column : DepthColumn) (r : Rect) (ws : List TextLine) :
    score_column_match depth_column r (some ws) =
      (depth_column.rect.y1 - depth_column.rect.y0
        - (|depth_column.rect.y0 - r.y0| + |depth_column.rect.y1 - r.y1|
            + |depth_column.rect.x1 - r.x0|))
        * (4 / 5 : ℚ) ^ depth_column.noise_count ws := by
  cases ws <;> rfl

/-- C6: for every depth column, region rect and word list option,
`score_column_match` returns `(height - distance) * 0.8 ^ noise` with
`distance = |top(col) - top(region)| + |bottom(col) - bottom(region)| +
|right(col) - left(region)|`, `height = bottom(col) - top(col)`, and `noise`
the column's noise count over the words, taken as `0` when no words are
supplied. -/
theorem C6_score_formula (depth_column : DepthColumn) (r : Rect) (w : Option (List TextLine)) :
    score_column_match depth_column r w =
      (depth_column.rect.y1 - depth_column.rect.y0
        - (|depth_column.rect.y0 - r.y0| + |depth_column.rect.y1 - r.y1|
            + |depth_column.rect.x1 - r.x0|))
        * (4 / 5 : ℚ) ^ spec_noise depth_column w := by
  cases w with
  | none => rfl
  | some ws => simpa [spec_noise] using score_column_match_some depth_column r ws

/-- C5 counterexample: a concrete column/region pair whose `height` is
smaller than its `distance` (base score `-10`).  One noisy word gives noise
count `1` versus `0` for no words, yet the score does not decrease
(`-8 > -10`), refuting the claim that increasing noise strictly decreases
the score for every fixed column and region. -/
theorem C5_counterexample :
    DepthColumn.noise_count ⟨⟨0, 0, 5, 10⟩, []⟩ [⟨⟨1, 1, 2, 2⟩, false⟩] = 1
    ∧ DepthColumn.noise_count ⟨⟨0, 0, 5, 10⟩, []⟩ [] = 0
    ∧ ¬ (score_column_match ⟨⟨0, 0, 5, 10⟩, []⟩ ⟨25, 0, 30, 10⟩ (some [⟨⟨1, 1, 2, 2⟩, false⟩])
        < score_column_match ⟨⟨0, 0, 5, 10⟩, []⟩ ⟨25, 0, 30, 10⟩ (some [])) := by
  refine ⟨rfl, rfl, ?_⟩
  rw [score_column_match_some, score_column_match_some]
  norm_num [DepthColumn.noise_count, Rect.intersects]

/-- C5 amended: for a fixed depth column and region rect whose base score
`height - distance` is positive, a word list with a strictly larger noise
count yields a strictly smaller score. -/
theorem C5_noise_monotone (depth_column : DepthColumn) (r : Rect) (ws1 ws2 : List TextLine)
    (hbase : 0 < depth_column.rect.y1 - depth_column.rect.y0
      - (|depth_column.rect.y0 - r.y0| + |depth_column.rect.y1 - r.y1|
          + |depth_column.rect.x1 - r.x0|))
    (hn : depth_column.noise_count ws1 < depth_column.noise_count ws2) :
    score_column_match depth_column r (some ws2) < score_column_match depth_column r (some ws1) := by
  rw [score_column_match_some, score_column_match_some]
  exact mul_lt_mul_of_pos_left
    (pow_lt_pow_right_of_lt_one₀ (by norm_num) (by norm_num) hn) hbase

/-- Witness for C5: concrete column, region with positive base score, and
word lists of noise counts `0 < 1`. -/
theorem C5_noise_monotone_witness :
    score_column_match ⟨⟨0, 0, 5, 10⟩, []⟩ ⟨6, 0, 7, 10⟩ (some [⟨⟨1, 1, 2, 2⟩, false⟩])
      < score_column_match ⟨⟨0, 0, 5, 10⟩, []⟩ ⟨6, 0, 7, 10⟩ (some []) :=
  C5_noise_monotone ⟨⟨0, 0, 5, 10⟩, []⟩ ⟨6, 0, 7, 10⟩ [] [⟨⟨1, 1, 2, 2⟩, false⟩]
    (by norm_num) (by decide)

/-! ### Depth entities: claim C7 -/

/-- C7 counterexample: constructing a `LayerDepthColumnEntry` from entries on
pages `1` and `2` does fail fast, but with the Python `AssertionError` raised
by the `assert` statement, not with a `ValidationError` as the claim
states. -/
theorem C7_counterexample :
    LayerDepthColumnEntry.make ⟨⟨0, 0, 1, 1⟩, 0, 1⟩ ⟨⟨0, 2, 1, 3⟩, 5, 2⟩
        = .error .assertionError
    ∧ LayerDepthColumnEntry.make ⟨⟨0, 0, 1, 1⟩, 0, 1⟩ ⟨⟨0, 2, 1, 3⟩, 5, 2⟩
        ≠ .error .validationError := by
  refine ⟨rfl, fun h => ?_⟩
  rw [show LayerDepthColumnEntry.make ⟨⟨0, 0, 1, 1⟩, 0, 1⟩ ⟨⟨0, 2, 1, 3⟩, 5, 2⟩
      = Except.error PyError.assertionError from rfl] at h
  exact PyError.noConfusion (Except.error.inj h)

/-- C7 amended: construction fails fast with an `AssertionError` (the Python
`assert` statement) exactly when the two page numbers differ, and succeeds
when they are equal. -/
theorem C7_page_assert (start stop : DepthColumnEntry) :
    (start.page_number ≠ stop.page_number →
      LayerDepthColumnEntry.make start stop = .error .assertionError)
    ∧ (start.page_number = stop.page_number →
      LayerDepthColumnEntry.make start stop = .ok ⟨start, stop⟩) := by
  constructor
  · intro h
    simp [LayerDepthColumnEntry.make, h]
  · intro h
    simp [LayerDepthColumnEntry.make, h]

/-- Witness for C7: both branches at concrete entries. -/
theorem C7_page_assert_witness :
    LayerDepthColumnEntry.make ⟨⟨0, 0, 1, 1⟩, 0, 3⟩ ⟨⟨0, 2, 1, 3⟩, 5, 4⟩
        = .error .assertionError
    ∧ LayerDepthColumnEntry.make ⟨⟨0, 0, 1, 1⟩, 0, 3⟩ ⟨⟨0, 2, 1, 3⟩, 5, 3⟩
        = .ok ⟨⟨⟨0, 0, 1, 1⟩, 0, 3⟩, ⟨⟨0, 2, 1, 3⟩, 5, 3⟩⟩ :=
  ⟨(C7_page_assert ⟨⟨0, 0, 1, 1⟩, 0, 3⟩ ⟨⟨0, 2, 1, 3⟩, 5, 4⟩).1 (by decide),
    (C7_page_assert ⟨⟨0, 0, 1, 1⟩, 0, 3⟩ ⟨⟨0, 2, 1, 3⟩, 5, 3⟩).2 rfl⟩

/-! ### Reconciler: claim C9 -/

/-- C9: with exactly one depth interval and no text blocks,
`transform_groups` succeeds and returns a single pair carrying the given
interval and a concatenated block with zero lines. -/
theorem C9_single_interval_empty_blocks (d : TextBlock → TextBlock → ℚ) (i : Interval) :
    transform_groups d [i] [] = .ok [⟨i, ⟨[], false⟩⟩] := rfl

/-! ### Dataset metrics: claim C10 -/

/-- C10: with an empty per-document metrics mapping, the macro F1, macro
precision and macro recall of `DatasetMetrics` all return `0` (no division
by zero is attempted). -/
theorem C10_empty_metrics_zero :
    DatasetMetrics.avg_f1 ⟨[]⟩ = 0
    ∧ DatasetMetrics.avg_precision ⟨[]⟩ = 0
    ∧ DatasetMetrics.avg_recall ⟨[]⟩ = 0 :=
  ⟨rfl, rfl, rfl⟩

/-! ### Locator reductions: claim C8 counterexample -/

/-- C8 counterexample: the per-cluster min/max reductions of
`find_material_description_column` are not guarded; on an empty cluster the
first reduction surfaces the platform `ValueError` (Python `min([])`) rather
than failing with a `PreconditionError`. -/
theorem C8_counterexample :
    cluster_bounds [] [] = .error .valueError
    ∧ cluster_bounds [] [] ≠ .error .preconditionError := by
  refine ⟨rfl, fun h => ?_⟩
  rw [show cluster_bounds [] [] = Except.error PyError.valueError from rfl] at h
  exact PyError.noConfusion (Except.error.inj h)

/-! ### Specifications of the Python reductions -/

/-- The left fold of `min` lands in the list and bounds every element. -/
theorem foldl_min_spec (x : ℚ) (xs : List ℚ) :
    xs.foldl min x ∈ x :: xs ∧ ∀ b ∈ x :: xs, xs.foldl min x ≤ b := by
  induction xs generalizing x with
  | nil =>
    refine ⟨List.mem_cons_self _ _, ?_⟩
    intro b hb
    rcases List.mem_cons.1 hb with rfl | hb2
    · exact le_refl _
    · cases hb2
  | cons y ys ih =>
    obtain ⟨hmem, hle⟩ := ih (min x y)
    rw [List.foldl_cons]
    constructor
    · rcases List.mem_cons.1 hmem with he | hi
      · rcases min_choice x y with hc | hc
        · rw [he, hc]; exact List.mem_cons_self _ _
        · rw [he, hc]; exact List.mem_cons_of_mem _ (List.mem_cons_self _ _)
      · exact List.mem_cons_of_mem _ (List.mem_cons_of_mem _ hi)
    · intro b hb
      rcases List.mem_cons.1 hb with rfl | hb2
      · exact le_trans (hle _ (List.mem_cons_self _ _)) (min_le_left _ _)
      · rcases List.mem_cons.1 hb2 with rfl | hb3
        · exact le_trans (hle _ (List.mem_cons_self _ _)) (min_le_right _ _)
        · exact hle _ (List.mem_cons_of_mem _ hb3)

/-- The left fold of `max` lands in the list and dominates every element. -/
theorem foldl_max_spec (x : ℚ) (xs : List ℚ) :
    xs.foldl max x ∈ x :: xs ∧ ∀ b ∈ x :: xs, b ≤ xs.foldl max x := by
  induction xs generalizing x with
  | nil =>
    refine ⟨List.mem_cons_self _ _, ?_⟩
    intro b hb
    rcases List.mem_cons.1 hb with rfl | hb2
    · exact le_refl _
    · cases hb2
  | cons y ys ih =>
    obtain ⟨hmem, hle⟩ := ih (max x y)
    rw [List.foldl_cons]
    constructor
    · rcases List.mem_cons.1 hmem with he | hi
      · rcases max_choice x y with hc | hc
        · rw [he, hc]; exact List.mem_cons_self _ _
        · rw [he, hc]; exact List.mem_cons_of_mem _ (List.mem_cons_self _ _)
      · exact List.mem_cons_of_mem _ (List.mem_cons_of_mem _ hi)
    · intro b hb
      rcases List.mem_cons.1 hb with rfl | hb2
      · exact le_trans (le_max_left _ _) (hle _ (List.mem_cons_self _ _))
      · rcases List.mem_cons.1 hb2 with rfl | hb3
        · exact le_trans (le_max_right _ _) (hle _ (List.mem_cons_self _ _))
        · exact hle _ (List.mem_cons_of_mem _ hb3)

/-- On a non-empty list, `pyMin` succeeds with the minimum. -/
theorem pyMin_ok {l : List ℚ} (h : l ≠ []) :
    ∃ v, pyMin l = .ok v ∧ v ∈ l ∧ ∀ b ∈ l, v ≤ b := by
  cases l with
  | nil => exact absurd rfl h
  | cons x xs =>
    obtain ⟨hm, hle⟩ := foldl_min_spec x xs
    exact ⟨xs.foldl min x, rfl, hm, hle⟩

/-- On a non-empty list, `pyMax` succeeds with the maximum. -/
theorem pyMax_ok {l : List ℚ} (h : l ≠ []) :
    ∃ v, pyMax l = .ok v ∧ v ∈ l ∧ ∀ b ∈ l, b ≤ v := by
  cases l with
  | nil => exact absurd rfl h
  | cons x xs =>
    obtain ⟨hm, hle⟩ := foldl_max_spec x xs
    exact ⟨xs.foldl max x, rfl, hm, hle⟩

/-! ### Locator clusters: claim C8 (amended part) -/

/-- The filtered coverage is a sublist of the coverage it came from. -/
theorem filter_coverage_sublist (coverage : List TextLine) :
    List.Sublist (filter_coverage coverage) coverage := by
  unfold filter_coverage
  split
  · exact List.filter_sublist _
  · exact List.nil_sublist _

/-- Members of a coverage set come from the pool. -/
theorem coverage_of_subset (generating : TextLine) (pool : List TextLine) :
    ∀ l ∈ coverage_of generating pool, l ∈ pool := by
  intro l hl
  exact List.mem_of_mem_filter hl

/-- C8 amended: the per-cluster reductions are not guarded, but whenever the
clustering step hands them a non-empty cluster (a filtered coverage set of
positive-width lines drawn from the candidate pool) every reduction operates
on a non-empty collection: the cluster itself is non-empty and every cluster
member passes the good-lines filter, so `cluster_bounds` succeeds and never
reaches the `ValueError` of an empty `min`/`max`. -/
theorem C8_cluster_bounds_ok (generating : TextLine) (pool candidates : List TextLine)
    (hsub : ∀ l ∈ pool, l ∈ candidates)
    (hw : ∀ l ∈ pool, 0 < l.rect.width)
    (hne : filter_coverage (coverage_of generating pool) ≠ []) :
    ∃ good_lines best_x0 best_x1,
      cluster_bounds candidates (filter_coverage (coverage_of generating pool))
          = .ok (good_lines, best_x0, best_x1)
      ∧ good_lines ≠ [] := by
  have hclpool : ∀ l ∈ filter_coverage (coverage_of generating pool), l ∈ pool := by
    intro l hl
    exact coverage_of_subset generating pool l
      ((filter_coverage_sublist (coverage_of generating pool)).subset hl)
  obtain ⟨c, cs, hceq⟩ := List.exists_cons_of_ne_nil hne
  have hc0 : c ∈ filter_coverage (coverage_of generating pool) := by
    rw [hceq]; exact List.mem_cons_self _ _
  have hmapne : ∀ f : TextLine → ℚ,
      (filter_coverage (coverage_of generating pool)).map f ≠ [] := by
    intro f h
    rw [List.map_eq_nil_iff] at h
    exact hne h
  obtain ⟨by0, hby0, _, hby0le⟩ := pyMin_ok (hmapne (fun l => l.rect.y0))
  obtain ⟨by1, hby1, _, hby1le⟩ := pyMax_ok (hmapne (fun l => l.rect.y1))
  obtain ⟨mdx0, hmdx0, _, hmdx0le⟩ :=
    pyMin_ok (hmapne (fun l => l.rect.x0 - (1 / 100) * l.rect.width))
  obtain ⟨mMx0, hmMx0, _, hmMx0le⟩ :=
    pyMax_ok (hmapne (fun l => l.rect.x0 + (1 / 5) * l.rect.width))
  have hcgood : c ∈ good_lines_of candidates by0 by1 mdx0 mMx0 := by
    refine List.mem_filter.2 ⟨hsub c (hclpool c hc0), ?_⟩
    have hwc : 0 < c.rect.width := hw c (hclpool c hc0)
    refine decide_eq_true ?_
    refine ⟨?_, ?_, ?_, ?_⟩
    · exact hby0le _ (List.mem_map_of_mem _ hc0)
    · exact hby1le _ (List.mem_map_of_mem _ hc0)
    · exact lt_of_le_of_lt (hmdx0le _ (List.mem_map_of_mem _ hc0))
        (sub_lt_self _ (by positivity))
    · exact lt_of_lt_of_le (lt_add_of_pos_right _ (by positivity))
        (hmMx0le _ (List.mem_map_of_mem _ hc0))
  have hgne : good_lines_of candidates by0 by1 mdx0 mMx0 ≠ [] :=
    List.ne_nil_of_mem hcgood
  have hgmapne : ∀ f : TextLine → ℚ,
      (good_lines_of candidates by0 by1 mdx0 mMx0).map f ≠ [] := by
    intro f h
    rw [List.map_eq_nil_iff] at h
    exact hgne h
  obtain ⟨bx0, hbx0, _, _⟩ := pyMin_ok (hgmapne (fun l => l.rect.x0))
  obtain ⟨bx1, hbx1, _, _⟩ := pyMax_ok (hgmapne (fun l => l.rect.x1))
  refine ⟨good_lines_of candidates by0 by1 mdx0 mMx0, bx0, bx1, ?_, hgne⟩
  unfold cluster_bounds
  rw [hby0, hby1, hmdx0, hmMx0]
  show best_x_bounds (good_lines_of candidates by0 by1 mdx0 mMx0)
    = Except.ok (good_lines_of candidates by0 by1 mdx0 mMx0, bx0, bx1)
  unfold best_x_bounds
  rw [hbx0, hbx1]

/-- Witness for C8: a single positive-width description line is its own
cluster and its own good line, so `cluster_bounds` succeeds on it. -/
theorem C8_cluster_bounds_ok_witness :
    ∃ good_lines best_x0 best_x1,
      cluster_bounds [⟨⟨0, 0, 10, 1⟩, true⟩]
          (filter_coverage (coverage_of ⟨⟨0, 0, 10, 1⟩, true⟩ [⟨⟨0, 0, 10, 1⟩, true⟩]))
          = .ok (good_lines, best_x0, best_x1)
      ∧ good_lines ≠ [] :=
  C8_cluster_bounds_ok ⟨⟨0, 0, 10, 1⟩, true⟩ [⟨⟨0, 0, 10, 1⟩, true⟩] [⟨⟨0, 0, 10, 1⟩, true⟩]
    (by intro l hl; exact hl)
    (by
      intro l hl
      rcases List.mem_cons.1 hl with rfl | h2
      · norm_num [Rect.width]
      · cases h2)
    (by
      rw [show coverage_of ⟨⟨0, 0, 10, 1⟩, true⟩ [⟨⟨0, 0, 10, 1⟩, true⟩]
          = [⟨⟨0, 0, 10, 1⟩, true⟩] from by
        simp [coverage_of, x_overlap_significant_smallest, x_overlap, Rect.width]
        norm_num]
      rw [show filter_coverage [(⟨⟨0, 0, 10, 1⟩, true⟩ : TextLine)]
          = [⟨⟨0, 0, 10, 1⟩, true⟩] from by
        simp [filter_coverage, pyMin, pyMax]
        norm_num]
      exact List.cons_ne_nil _ _)

/-! ### Pairing conflict removal: claim C4 -/

/-- C4: when the pairing step produces exactly two pairs whose region rects
intersect and whose scores differ, the filtered list contains the
higher-scoring pair and not the lower-scoring one (stated with `p1` the
lower-scoring pair; the two pairs are universally quantified, so this covers
both orders). -/
theorem C4_conflict_removal (all_words : List TextLine) (p1 p2 : ColumnPair)
    (hint : p1.region.intersects p2.region = true)
    (hlt : pair_score all_words p1 < pair_score all_words p2) :
    filtered_pairs all_words [p1, p2] = [p2]
    ∧ p1 ∉ filtered_pairs all_words [p1, p2] := by
  have heq : filtered_pairs all_words [p1, p2] = [p2] := by
    unfold filtered_pairs
    rw [show List.insertionSort
        (fun a b => pair_score all_words a ≤ pair_score all_words b) [p1, p2]
        = [p1, p2] from by
      simp [List.insertionSort, List.orderedInsert, hlt.le]]
    simp [List.enum, List.enumFrom, List.filter, hint]
  have hne12 : p1 ≠ p2 := fun h => absurd hlt (by rw [h]; exact lt_irrefl _)
  refine ⟨heq, ?_⟩
  rw [heq]
  simp [hne12]

/-- Witness for C4: two concrete overlapping pairs with scores `6 < 9`; the
score-9 pair survives, the score-6 pair is removed. -/
theorem C4_conflict_removal_witness :
    filtered_pairs []
        [⟨⟨⟨0, 0, 1, 8⟩, []⟩, ⟨2, 0, 3, 9⟩⟩, ⟨⟨⟨0, 0, 1, 10⟩, []⟩, ⟨2, 0, 3, 10⟩⟩]
        = [⟨⟨⟨0, 0, 1, 10⟩, []⟩, ⟨2, 0, 3, 10⟩⟩]
    ∧ (⟨⟨⟨0, 0, 1, 8⟩, []⟩, ⟨2, 0, 3, 9⟩⟩ : ColumnPair) ∉ filtered_pairs []
        [⟨⟨⟨0, 0, 1, 8⟩, []⟩, ⟨2, 0, 3, 9⟩⟩, ⟨⟨⟨0, 0, 1, 10⟩, []⟩, ⟨2, 0, 3, 10⟩⟩] :=
  C4_conflict_removal [] ⟨⟨⟨0, 0, 1, 8⟩, []⟩, ⟨2, 0, 3, 9⟩⟩ ⟨⟨⟨0, 0, 1, 10⟩, []⟩, ⟨2, 0, 3, 10⟩⟩
    (by decide)
    (by
      simp only [pair_score]
      rw [score_column_match_some, score_column_match_some]
      norm_num [DepthColumn.noise_count])

/-! ### Merge machinery: claim C2 -/

/-- Evaluation of `pyIndex` at a non-negative in-range index. -/
theorem pyIndex_ok {α : Type} (l : List α) (t : ℕ) (h : t < l.length) :
    pyIndex l (t : ℤ) = .ok (l.get ⟨t, h⟩) := by
  have h1 : ¬ ((t : ℤ) < 0) := by omega
  unfold pyIndex
  simp only [if_neg h1, Int.toNat_natCast]
  rw [List.get?_eq_get h]

/-- Taking the `t`-th smallest element of a list as a cutoff: at least `t`
elements of the list are at most the cutoff. -/
theorem sorted_get_countP (l : List ℚ) (t : ℕ) (ht1 : 1 ≤ t) (ht2 : t ≤ l.length) :
    ∃ cutoff,
      pyIndex (List.insertionSort (· ≤ ·) l) ((t : ℤ) - 1) = .ok cutoff
      ∧ t ≤ l.countP (fun x => decide (x ≤ cutoff)) := by
  have hperm := List.perm_insertionSort (· ≤ ·) l
  have hlen : (List.insertionSort (· ≤ ·) l).length = l.length := hperm.length_eq
  have hsort : (List.insertionSort (· ≤ ·) l).Sorted (· ≤ ·) :=
    List.sorted_insertionSort _ l
  have hidx : t - 1 < (List.insertionSort (· ≤ ·) l).length := by omega
  have hcast : ((t : ℤ) - 1) = ((t - 1 : ℕ) : ℤ) := by omega
  refine ⟨(List.insertionSort (· ≤ ·) l).get ⟨t - 1, hidx⟩, ?_, ?_⟩
  · rw [hcast]
    exact pyIndex_ok _ _ hidx
  · rw [← hperm.countP_eq]
    set s := List.insertionSort (· ≤ ·) l with hs
    set cutoff := s.get ⟨t - 1, hidx⟩ with hcut
    have htk : ∀ a ∈ s.take t, (fun x => decide (x ≤ cutoff)) a = true := by
      intro a ha
      obtain ⟨⟨i, hi⟩, hget⟩ := List.mem_iff_get.1 ha
      have hi2 : i < t := by
        have := hi
        rw [List.length_take] at this
        omega
      have hi3 : i < s.length := by omega
      have hgt : (s.take t).get ⟨i, hi⟩ = s.get ⟨i, hi3⟩ := List.get_take' s
      have hle : s.get ⟨i, hi3⟩ ≤ cutoff := by
        rw [hcut]
        exact hsort.rel_get_of_le (by simp [Fin.le_def]; omega)
      rw [← hget, hgt]
      exact decide_eq_true hle
    have hcc : (s.take t).countP (fun x => decide (x ≤ cutoff)) = (s.take t).length :=
      List.countP_eq_length.2 htk
    have hsplit : s = s.take t ++ s.drop t := (List.take_append_drop t s).symm
    calc t = (s.take t).length := by rw [List.length_take]; omega
    _ = (s.take t).countP (fun x => decide (x ≤ cutoff)) := hcc.symm
    _ ≤ s.countP (fun x => decide (x ≤ cutoff)) := by
        conv_rhs => rw [hsplit]
        rw [List.countP_append]
        omega

/-- Length of the merge walk: each tested distance is the distance between
consecutive original blocks, a merge happens exactly when fewer than `target`
merges have happened and the distance is at most the cutoff, and the final
accumulator is non-empty when all blocks are. -/
theorem mergeStep_length (d : TextBlock → TextBlock → ℚ) (cutoff : ℚ) (target : ℕ) :
    ∀ (rest : List TextBlock) (current prev : TextBlock) (cnt : ℕ),
      current.lines ≠ [] → (∀ b ∈ rest, b.lines ≠ []) →
      (mergeStep d cutoff target rest current prev cnt).length
        = rest.length + 1
          - min (target - cnt)
              ((List.zipWith d (prev :: rest) rest).countP (fun x => decide (x ≤ cutoff))) := by
  intro rest
  induction rest with
  | nil =>
    intro current prev cnt hcur _
    simp [mergeStep, List.isEmpty_iff, hcur]
  | cons nb rest ih =>
    intro current prev cnt hcur hrest
    have hnb : nb.lines ≠ [] := hrest nb (List.mem_cons_self _ _)
    have hrest2 : ∀ b ∈ rest, b.lines ≠ [] := fun b hb => hrest b (List.mem_cons_of_mem _ hb)
    have hclen : (List.zipWith d (nb :: rest) rest).countP (fun x => decide (x ≤ cutoff))
        ≤ rest.length := by
      refine le_trans (List.countP_le_length _) ?_
      rw [List.length_zipWith]
      omega
    by_cases hc : cnt < target ∧ d prev nb ≤ cutoff
    · rw [show mergeStep d cutoff target (nb :: rest) current prev cnt
          = mergeStep d cutoff target rest (current.concatenate nb) nb (cnt + 1) from by
        rw [mergeStep, if_pos hc]]
      rw [ih (current.concatenate nb) nb (cnt + 1)
        (by
          show current.lines ++ nb.lines ≠ []
          intro hemp
          exact hcur (List.append_eq_nil.1 hemp).1)
        hrest2]
      rw [List.zipWith_cons_cons, List.countP_cons, decide_eq_true hc.2, if_pos rfl]
      have h1 : cnt < target := hc.1
      simp only [List.length_cons]
      omega
    · rw [show mergeStep d cutoff target (nb :: rest) current prev cnt
          = current :: mergeStep d cutoff target rest nb nb cnt from by
        rw [mergeStep, if_neg hc]]
      rw [List.length_cons, ih nb nb cnt hnb hrest2]
      rw [List.zipWith_cons_cons, List.countP_cons]
      by_cases hd : d prev nb ≤ cutoff
      · have hcnt : ¬ cnt < target := fun h => hc ⟨h, hd⟩
        rw [decide_eq_true hd, if_pos rfl]
        simp only [List.length_cons]
        omega
      · rw [decide_eq_false hd, if_neg Bool.false_ne_true]
        simp only [List.length_cons]
        omega

/-- Shared helper: on at least two blocks, all non-empty, with
`1 ≤ target ≤ m - 1`, the merge succeeds and performs exactly `target`
merges, returning `m - target` blocks. -/
theorem merge_ok_length (d : TextBlock → TextBlock → ℚ) (blocks : List TextBlock) (target : ℕ)
    (hm : 2 ≤ blocks.length) (ht1 : 1 ≤ target) (ht2 : target ≤ blocks.length - 1)
    (hne : ∀ b ∈ blocks, b.lines ≠ []) :
    ∃ out, merge_blocks_by_vertical_spacing d blocks target = .ok out
      ∧ out.length = blocks.length - target := by
  cases blocks with
  | nil => simp at hm
  | cons b rest =>
    have hrlen : 1 ≤ rest.length := by
      have := hm
      simp only [List.length_cons] at this
      omega
    have hdlen : (List.zipWith d (b :: rest) rest).length = rest.length := by
      rw [List.length_zipWith]
      simp only [List.length_cons]
      omega
    have ht2' : target ≤ (List.zipWith d (b :: rest) rest).length := by
      rw [hdlen]
      simp only [List.length_cons] at ht2
      omega
    obtain ⟨cutoff, hcut, hcount⟩ :=
      sorted_get_countP (List.zipWith d (b :: rest) rest) target ht1 ht2'
    have hrun : merge_blocks_by_vertical_spacing d (b :: rest) target
        = .ok (mergeStep d cutoff target rest b b 0) := by
      unfold merge_blocks_by_vertical_spacing
      simp only [List.tail_cons]
      rw [hcut]
    refine ⟨_, hrun, ?_⟩
    rw [mergeStep_length d cutoff target rest b b 0
      (hne b (List.mem_cons_self _ _)) (fun bb hb => hne bb (List.mem_cons_of_mem _ hb))]
    have hcle : (List.zipWith d (b :: rest) rest).countP (fun x => decide (x ≤ cutoff))
        ≤ rest.length := by
      refine le_trans (List.countP_le_length _) ?_
      omega
    simp only [List.length_cons]
    omega

/-- C2 amended: for every abstract block distance, every list of `m ≥ 2`
non-empty text blocks and every `1 ≤ target_merge_count ≤ m - 1`,
`merge_blocks_by_vertical_spacing` performs exactly `target_merge_count`
merges, returning exactly `m - target_merge_count` blocks. -/
theorem C2_merge_count (d : TextBlock → TextBlock → ℚ) (blocks : List TextBlock) (target : ℕ)
    (hm : 2 ≤ blocks.length) (ht1 : 1 ≤ target) (ht2 : target ≤ blocks.length - 1)
    (hne : ∀ b ∈ blocks, b.lines ≠ []) :
    ∃ out, merge_blocks_by_vertical_spacing d blocks target = .ok out
      ∧ out.length = blocks.length - target :=
  merge_ok_length d blocks target hm ht1 ht2 hne

/-- Witness for C2: three concrete one-line blocks, constant distance,
one merge requested: two blocks come back. -/
theorem C2_merge_count_witness :
    ∃ out, merge_blocks_by_vertical_spacing (fun _ _ => 0)
        [⟨[⟨⟨0, 0, 1, 1⟩, false⟩], false⟩, ⟨[⟨⟨0, 1, 1, 2⟩, false⟩], false⟩,
          ⟨[⟨⟨0, 2, 1, 3⟩, false⟩], false⟩] 1 = .ok out
      ∧ out.length = 3 - 1 :=
  C2_merge_count (fun _ _ => 0)
    [⟨[⟨⟨0, 0, 1, 1⟩, false⟩], false⟩, ⟨[⟨⟨0, 1, 1, 2⟩, false⟩], false⟩,
      ⟨[⟨⟨0, 2, 1, 3⟩, false⟩], false⟩] 1
    (by decide) (by decide) (by decide) (by decide)

/-- C2 counterexample: with an empty trailing block the final accumulator is
dropped by the `if len(current_merged_block.lines)` guard, so three blocks
with one merge requested come back as a single block, not `3 - 1 = 2`. -/
theorem C2_counterexample :
    (merge_blocks_by_vertical_spacing (fun _a b => if b.lines.isEmpty then 5 else 1)
        [⟨[⟨⟨0, 0, 1, 1⟩, false⟩], false⟩, ⟨[⟨⟨0, 1, 1, 2⟩, false⟩], false⟩,
          ⟨[], false⟩] 1).map List.length = .ok 1
    ∧ (Except.ok 1 : Except PyError ℕ) ≠ .ok 2 := by
  refine ⟨rfl, fun h => ?_⟩
  exact absurd (Except.ok.inj h) (by decide)

/-! ### Split machinery: totals -/

/-- Total lines of a cons. -/
theorem totalLines_cons (b : TextBlock) (rest : List TextBlock) :
    totalLines (b :: rest) = b.lines.length + totalLines rest := by
  simp [totalLines]

/-- Total lines of an append. -/
theorem totalLines_append (a b : List TextBlock) :
    totalLines (a ++ b) = totalLines a + totalLines b := by
  simp [totalLines]

/-- Exploding a line list into one block per line preserves the line count. -/
theorem totalLines_singles (lines : List TextLine) :
    totalLines (lines.map (fun l => (⟨[l], false⟩ : TextBlock))) = lines.length := by
  induction lines with
  | nil => rfl
  | cons l rest ih =>
    rw [List.map_cons, totalLines_cons, ih]
    simp [Nat.add_comm]

/-- The degrade branch of the split (one block per line) returns exactly one
block per input line: both the block count and the total line count equal the
input's total line count. -/
theorem degrade_stats (blocks : List TextBlock) :
    ((blocks.map (fun b => b.lines.map (fun l => (⟨[l], false⟩ : TextBlock)))).flatten).length
        = totalLines blocks
    ∧ totalLines ((blocks.map (fun b => b.lines.map (fun l => (⟨[l], false⟩ : TextBlock)))).flatten)
        = totalLines blocks := by
  induction blocks with
  | nil => exact ⟨rfl, rfl⟩
  | cons b rest ih =>
    constructor
    · rw [List.map_cons, List.flatten_cons, List.length_append, List.length_map,
        totalLines_cons, ih.1]
    · rw [List.map_cons, List.flatten_cons, totalLines_append, totalLines_singles,
        totalLines_cons, ih.2]

/-- With non-empty blocks, the eligible-line count (every line except the
last of each block) is the total line count minus the block count. -/
theorem elig_length (blocks : List TextBlock) (hne : ∀ b ∈ blocks, b.lines ≠ []) :
    ((blocks.map (fun b => b.lines.dropLast.map (fun l => l.rect.x1))).flatten).length
      + blocks.length = totalLines blocks := by
  induction blocks with
  | nil => rfl
  | cons b rest ih =>
    have hb : b.lines ≠ [] := hne b (List.mem_cons_self _ _)
    have hblen : 0 < b.lines.length := List.length_pos.2 hb
    have ihr := ih (fun bb hb2 => hne bb (List.mem_cons_of_mem _ hb2))
    rw [List.map_cons, List.flatten_cons, List.length_append, List.length_map,
      List.length_dropLast, totalLines_cons, List.length_cons]
    omega

/-! ### Split machinery: the inner loop over one block -/

/-- Step equation of `splitOneBlock` on an empty line list. -/
theorem splitOneBlock_nil (current : List TextLine) (cutoff_values : List ℚ) :
    splitOneBlock [] current cutoff_values
      = (if current.isEmpty then [] else [⟨current, false⟩], cutoff_values) := rfl

/-- Step equation of `splitOneBlock` on a cons. -/
theorem splitOneBlock_cons (l : TextLine) (rest current : List TextLine)
    (cutoff_values : List ℚ) :
    splitOneBlock (l :: rest) current cutoff_values
      = if ¬ rest.isEmpty = true ∧ l.rect.x1 ∈ cutoff_values then
          (⟨current ++ [l], false⟩ ::
              (splitOneBlock rest [] (cutoff_values.erase l.rect.x1)).1,
            (splitOneBlock rest [] (cutoff_values.erase l.rect.x1)).2)
        else splitOneBlock rest (current ++ [l]) cutoff_values := rfl

/-- Cutoff consumption of the walk over one block's lines: for every value
`v`, the walk greedily consumes `min(available, eligible)` copies of `v` from
the cutoff list. -/
theorem splitOneBlock_count (v : ℚ) :
    ∀ (lines current : List TextLine) (cutoff_values : List ℚ),
      (splitOneBlock lines current cutoff_values).2.count v
        = cutoff_values.count v
          - min (cutoff_values.count v) ((lines.dropLast.map (fun l => l.rect.x1)).count v) := by
  intro lines
  induction lines with
  | nil =>
    intro current cutoffs
    simp [splitOneBlock_nil]
  | cons l rest ih =>
    intro current cutoffs
    cases rest with
    | nil =>
      rw [splitOneBlock_cons, if_neg (by simp)]
      simp [splitOneBlock_nil]
    | cons r0 rs =>
      by_cases hmem : l.rect.x1 ∈ cutoffs
      · have hcond : ¬ (r0 :: rs).isEmpty = true ∧ l.rect.x1 ∈ cutoffs := ⟨by simp, hmem⟩
        rw [splitOneBlock_cons, if_pos hcond]
        rw [show ((⟨current ++ [l], false⟩ ::
              (splitOneBlock (r0 :: rs) [] (cutoffs.erase l.rect.x1)).1,
            (splitOneBlock (r0 :: rs) [] (cutoffs.erase l.rect.x1)).2) :
              List TextBlock × List ℚ).2
            = (splitOneBlock (r0 :: rs) [] (cutoffs.erase l.rect.x1)).2 from rfl]
        rw [ih [] (cutoffs.erase l.rect.x1)]
        rw [List.dropLast_cons₂, List.map_cons, List.count_cons]
        by_cases hv : v = l.rect.x1
        · rw [if_pos (by simp only [beq_iff_eq]; exact hv.symm), hv, List.count_erase_self]
          have hge : 1 ≤ cutoffs.count l.rect.x1 := List.count_pos_iff.2 hmem
          omega
        · rw [if_neg (by simp only [beq_iff_eq]; exact fun h => hv h.symm),
            List.count_erase_of_ne hv]
          omega
      · rw [splitOneBlock_cons, if_neg (by simp [hmem])]
        rw [ih (current ++ [l]) cutoffs]
        rw [List.dropLast_cons₂, List.map_cons, List.count_cons]
        by_cases hv : v = l.rect.x1
        · have h0 : cutoffs.count v = 0 := by
            rw [List.count_eq_zero, hv]
            exact hmem
          rw [if_pos (by simp only [beq_iff_eq]; exact hv.symm), h0]
          omega
        · rw [if_neg (by simp only [beq_iff_eq]; exact fun h => hv h.symm)]
          omega

/-- The remaining cutoff list never grows. -/
theorem splitOneBlock_len2 :
    ∀ (lines current : List TextLine) (cutoff_values : List ℚ),
      (splitOneBlock lines current cutoff_values).2.length ≤ cutoff_values.length := by
  intro lines
  induction lines with
  | nil =>
    intro current cutoffs
    exact le_refl _
  | cons l rest ih =>
    intro current cutoffs
    cases rest with
    | nil =>
      rw [splitOneBlock_cons, if_neg (by simp)]
      exact ih (current ++ [l]) cutoffs
    | cons r0 rs =>
      by_cases hmem : l.rect.x1 ∈ cutoffs
      · have hcond : ¬ (r0 :: rs).isEmpty = true ∧ l.rect.x1 ∈ cutoffs := ⟨by simp, hmem⟩
        rw [splitOneBlock_cons, if_pos hcond]
        refine le_trans (ih [] (cutoffs.erase l.rect.x1)) ?_
        rw [List.length_erase_of_mem hmem]
        omega
      · rw [splitOneBlock_cons, if_neg (by simp [hmem])]
        exact ih (current ++ [l]) cutoffs

/-- Conservation of blocks produced versus cutoff values consumed over one
block: one flush plus one extra block per consumed cutoff value. -/
theorem splitOneBlock_len1 :
    ∀ (lines current : List TextLine) (cutoff_values : List ℚ),
      lines ≠ [] ∨ current ≠ [] →
      (splitOneBlock lines current cutoff_values).1.length
          + (splitOneBlock lines current cutoff_values).2.length
        = 1 + cutoff_values.length := by
  intro lines
  induction lines with
  | nil =>
    intro current cutoffs h
    have hcur : current ≠ [] := by
      rcases h with h | h
      · exact absurd rfl h
      · exact h
    simp [splitOneBlock_nil, List.isEmpty_iff, hcur]
  | cons l rest ih =>
    intro current cutoffs _
    cases rest with
    | nil =>
      rw [splitOneBlock_cons, if_neg (by simp)]
      exact ih (current ++ [l]) cutoffs (Or.inr (by simp))
    | cons r0 rs =>
      by_cases hmem : l.rect.x1 ∈ cutoffs
      · have hcond : ¬ (r0 :: rs).isEmpty = true ∧ l.rect.x1 ∈ cutoffs := ⟨by simp, hmem⟩
        rw [splitOneBlock_cons, if_pos hcond]
        have hrec := ih [] (cutoffs.erase l.rect.x1) (Or.inl (List.cons_ne_nil _ _))
        rw [List.length_erase_of_mem hmem] at hrec
        have hge : 1 ≤ cutoffs.count l.rect.x1 := List.count_pos_iff.2 hmem
        have hle : cutoffs.count l.rect.x1 ≤ cutoffs.length := List.count_le_length _ _
        simp only [List.length_cons]
        omega
      · rw [splitOneBlock_cons, if_neg (by simp [hmem])]
        exact ih (current ++ [l]) cutoffs (Or.inl (List.cons_ne_nil _ _))

/-- The blocks produced from one block carry exactly its lines plus the lines
passed in through the accumulator. -/
theorem splitOneBlock_sum :
    ∀ (lines current : List TextLine) (cutoff_values : List ℚ),
      totalLines (splitOneBlock lines current cutoff_values).1
        = current.length + lines.length := by
  intro lines
  induction lines with
  | nil =>
    intro current cutoffs
    by_cases hcur : current.isEmpty
    · have hc2 : current = [] := List.isEmpty_iff.1 hcur
      simp [splitOneBlock_nil, hcur, hc2, totalLines]
    · simp [splitOneBlock_nil, hcur, totalLines]
  | cons l rest ih =>
    intro current cutoffs
    cases rest with
    | nil =>
      rw [splitOneBlock_cons, if_neg (by simp)]
      rw [ih (current ++ [l]) cutoffs]
      simp
    | cons r0 rs =>
      by_cases hmem : l.rect.x1 ∈ cutoffs
      · have hcond : ¬ (r0 :: rs).isEmpty = true ∧ l.rect.x1 ∈ cutoffs := ⟨by simp, hmem⟩
        rw [splitOneBlock_cons, if_pos hcond]
        rw [show totalLines ((⟨current ++ [l], false⟩ ::
              (splitOneBlock (r0 :: rs) [] (cutoffs.erase l.rect.x1)).1,
            (splitOneBlock (r0 :: rs) [] (cutoffs.erase l.rect.x1)).2) :
              List TextBlock × List ℚ).1
            = totalLines (⟨current ++ [l], false⟩ ::
                (splitOneBlock (r0 :: rs) [] (cutoffs.erase l.rect.x1)).1) from rfl]
        rw [totalLines_cons, ih [] (cutoffs.erase l.rect.x1)]
        simp only [List.length_append, List.length_cons, List.length_nil]
        omega
      · rw [splitOneBlock_cons, if_neg (by simp [hmem])]
        rw [ih (current ++ [l]) cutoffs]
        simp only [List.length_append, List.length_cons, List.length_nil]
        omega

/-! ### Split machinery: the outer loop and claim C3 -/

/-- Step equation of `splitBlocksLoop` on the empty block list. -/
theorem splitBlocksLoop_nil (cutoff_values : List ℚ) (acc : List TextBlock) :
    splitBlocksLoop [] cutoff_values acc = .ok acc := rfl

/-- Step equation of `splitBlocksLoop` on a cons. -/
theorem splitBlocksLoop_cons (b : TextBlock) (rest : List TextBlock)
    (cutoff_values : List ℚ) (acc : List TextBlock) :
    splitBlocksLoop (b :: rest) cutoff_values acc
      = if b.is_terminated_by_line then
          match (acc ++ (splitOneBlock b.lines [] cutoff_values).1).getLast? with
          | none => .error .indexError
          | some last =>
            splitBlocksLoop rest (splitOneBlock b.lines [] cutoff_values).2
              ((acc ++ (splitOneBlock b.lines [] cutoff_values).1).dropLast
                ++ [{ last with is_terminated_by_line := true }])
        else
          splitBlocksLoop rest (splitOneBlock b.lines [] cutoff_values).2
            (acc ++ (splitOneBlock b.lines [] cutoff_values).1) := rfl

/-- Step equations of `splitRemaining`. -/
theorem splitRemaining_nil_eq (cutoff_values : List ℚ) :
    splitRemaining [] cutoff_values = cutoff_values := rfl

/-- Unfolding of `splitRemaining` on a cons. -/
theorem splitRemaining_cons (b : TextBlock) (rest : List TextBlock) (cutoff_values : List ℚ) :
    splitRemaining (b :: rest) cutoff_values
      = splitRemaining rest (splitOneBlock b.lines [] cutoff_values).2 := rfl

/-- The outer split loop over non-empty blocks never raises: the
terminated-flag rewrite always finds a last output block, the output block
count is the input block count plus the number of consumed cutoff values,
and the total line count is preserved. -/
theorem splitBlocksLoop_ok :
    ∀ (blocks : List TextBlock) (cutoff_values : List ℚ) (acc : List TextBlock),
      (∀ b ∈ blocks, b.lines ≠ []) →
      ∃ out, splitBlocksLoop blocks cutoff_values acc = .ok out
        ∧ out.length + (splitRemaining blocks cutoff_values).length
            = acc.length + blocks.length + cutoff_values.length
        ∧ totalLines out = totalLines acc + totalLines blocks := by
  intro blocks
  induction blocks with
  | nil =>
    intro cutoffs acc _
    refine ⟨acc, rfl, ?_, ?_⟩
    · rw [splitRemaining_nil_eq]
      simp
    · simp [totalLines]
  | cons b rest ih =>
    intro cutoffs acc hne
    have hbl : b.lines ≠ [] := hne b (List.mem_cons_self _ _)
    have hrest : ∀ bb ∈ rest, bb.lines ≠ [] := fun bb hb => hne bb (List.mem_cons_of_mem _ hb)
    have hlen1 := splitOneBlock_len1 b.lines [] cutoffs (Or.inl hbl)
    have hlen2 := splitOneBlock_len2 b.lines [] cutoffs
    have hsum1 : totalLines (splitOneBlock b.lines [] cutoffs).1 = b.lines.length := by
      simpa using splitOneBlock_sum b.lines [] cutoffs
    have hr1pos : 0 < (splitOneBlock b.lines [] cutoffs).1.length := by omega
    have hacc2ne : acc ++ (splitOneBlock b.lines [] cutoffs).1 ≠ [] := by
      intro h
      have h2 := congrArg List.length h
      rw [List.length_append] at h2
      simp only [List.length_nil] at h2
      omega
    by_cases hterm : b.is_terminated_by_line = true
    · have hlast := List.getLast?_eq_getLast (acc ++ (splitOneBlock b.lines [] cutoffs).1) hacc2ne
      obtain ⟨out, hloop, hl, hs⟩ := ih (splitOneBlock b.lines [] cutoffs).2
        ((acc ++ (splitOneBlock b.lines [] cutoffs).1).dropLast
          ++ [{ (acc ++ (splitOneBlock b.lines [] cutoffs).1).getLast hacc2ne with
                is_terminated_by_line := true }]) hrest
      have hacc3len : ((acc ++ (splitOneBlock b.lines [] cutoffs).1).dropLast
          ++ [{ (acc ++ (splitOneBlock b.lines [] cutoffs).1).getLast hacc2ne with
                is_terminated_by_line := true }]).length
          = acc.length + (splitOneBlock b.lines [] cutoffs).1.length := by
        rw [List.length_append, List.length_dropLast, List.length_append]
        simp only [List.length_cons, List.length_nil]
        omega
      have hacc3sum : totalLines ((acc ++ (splitOneBlock b.lines [] cutoffs).1).dropLast
          ++ [{ (acc ++ (splitOneBlock b.lines [] cutoffs).1).getLast hacc2ne with
                is_terminated_by_line := true }])
          = totalLines acc + b.lines.length := by
        have hdropsum : totalLines ((acc ++ (splitOneBlock b.lines [] cutoffs).1).dropLast)
            + ((acc ++ (splitOneBlock b.lines [] cutoffs).1).getLast hacc2ne).lines.length
            = totalLines (acc ++ (splitOneBlock b.lines [] cutoffs).1) := by
          conv_rhs => rw [← List.dropLast_append_getLast hacc2ne]
          rw [totalLines_append]
          simp [totalLines]
        rw [totalLines_append] at hdropsum ⊢
        rw [hsum1] at hdropsum
        simp only [totalLines, List.map_cons, List.map_nil, List.sum_cons, List.sum_nil] at *
        omega
      refine ⟨out, ?_, ?_, ?_⟩
      · rw [splitBlocksLoop_cons, if_pos hterm, hlast]
        exact hloop
      · rw [splitRemaining_cons]
        rw [hacc3len] at hl
        simp only [List.length_cons]
        omega
      · rw [hs, hacc3sum, totalLines_cons]
        omega
    · obtain ⟨out, hloop, hl, hs⟩ := ih (splitOneBlock b.lines [] cutoffs).2
        (acc ++ (splitOneBlock b.lines [] cutoffs).1) hrest
      refine ⟨out, ?_, ?_, ?_⟩
      · rw [splitBlocksLoop_cons, if_neg hterm]
        exact hloop
      · rw [splitRemaining_cons]
        rw [List.length_append] at hl
        simp only [List.length_cons]
        omega
      · rw [hs, totalLines_append, hsum1, totalLines_cons]
        omega

/-- When every cutoff value is covered (with multiplicity) by the eligible
line ends, the walk consumes all of them. -/
theorem splitRemaining_consumed :
    ∀ (blocks : List TextBlock) (cutoff_values : List ℚ),
      (∀ v : ℚ, cutoff_values.count v
        ≤ ((blocks.map (fun b => b.lines.dropLast.map (fun l => l.rect.x1))).flatten).count v) →
      splitRemaining blocks cutoff_values = [] := by
  intro blocks
  induction blocks with
  | nil =>
    intro cutoffs h
    cases cutoffs with
    | nil => rfl
    | cons c cs =>
      exfalso
      have hc := h c
      simp only [List.map_nil, List.flatten_nil, List.count_nil] at hc
      have hpos : 0 < (c :: cs).count c := List.count_pos_iff.2 (List.mem_cons_self _ _)
      omega
  | cons b rest ih =>
    intro cutoffs h
    rw [splitRemaining_cons]
    apply ih
    intro v
    have hcnt := splitOneBlock_count v b.lines [] cutoffs
    have hv := h v
    rw [List.map_cons, List.flatten_cons, List.count_append] at hv
    omega

/-- Shared helper for claims C3 and C1: with non-empty blocks the split never
raises, preserves the total line count, degrades to one block per line when
there are at most `target` eligible line ends, and otherwise returns exactly
`target` additional blocks. -/
theorem split_ok (blocks : List TextBlock) (target : ℕ)
    (hne : ∀ b ∈ blocks, b.lines ≠ []) :
    ∃ out, split_blocks_by_textline_length blocks target = .ok out
      ∧ totalLines out = totalLines blocks
      ∧ (((blocks.map (fun b => b.lines.dropLast.map (fun l => l.rect.x1))).flatten).length
            ≤ target → out.length = totalLines blocks)
      ∧ (target < ((blocks.map (fun b => b.lines.dropLast.map (fun l => l.rect.x1))).flatten).length
            → out.length = blocks.length + target) := by
  have hsortlen : (List.insertionSort (· ≤ ·)
      ((blocks.map (fun b => b.lines.dropLast.map (fun l => l.rect.x1))).flatten)).length
      = ((blocks.map (fun b => b.lines.dropLast.map (fun l => l.rect.x1))).flatten).length :=
    (List.perm_insertionSort _ _).length_eq
  by_cases hcase : (List.insertionSort (· ≤ ·)
      ((blocks.map (fun b => b.lines.dropLast.map (fun l => l.rect.x1))).flatten)).length ≤ target
  · refine ⟨(blocks.map (fun b => b.lines.map (fun l => (⟨[l], false⟩ : TextBlock)))).flatten,
      ?_, (degrade_stats blocks).2, fun _ => (degrade_stats blocks).1,
      fun hlt => absurd hlt (by omega)⟩
    unfold split_blocks_by_textline_length
    rw [if_pos hcase]
  · have hsub : ∀ v : ℚ, (((List.insertionSort (· ≤ ·)
        ((blocks.map (fun b => b.lines.dropLast.map (fun l => l.rect.x1))).flatten)).take
          target).count v)
        ≤ ((blocks.map (fun b => b.lines.dropLast.map (fun l => l.rect.x1))).flatten).count v := by
      intro v
      refine le_trans (List.Sublist.count_le (List.take_sublist _ _) v) ?_
      exact le_of_eq ((List.perm_insertionSort (· ≤ ·) _).count_eq v)
    obtain ⟨out, hloop, hl, hs⟩ := splitBlocksLoop_ok blocks
      ((List.insertionSort (· ≤ ·)
        ((blocks.map (fun b => b.lines.dropLast.map (fun l => l.rect.x1))).flatten)).take target)
      [] hne
    rw [splitRemaining_consumed blocks _ hsub] at hl
    have htlen : ((List.insertionSort (· ≤ ·)
        ((blocks.map (fun b => b.lines.dropLast.map (fun l => l.rect.x1))).flatten)).take
          target).length = target := by
      rw [List.length_take]
      omega
    refine ⟨out, ?_, ?_, fun hc => absurd hc (by omega), fun _ => ?_⟩
    · unfold split_blocks_by_textline_length
      rw [if_neg hcase]
      exact hloop
    · rw [hs]
      simp [totalLines]
    · rw [htlen] at hl
      simp only [List.length_nil] at hl
      omega

/-- C3 amended: for every non-empty list of text blocks each containing at
least one line and every `target_split_count ≥ 1`, the split succeeds and the
sum of the line counts of the returned blocks equals the input sum, in both
the degrade branch and the cutoff branch. -/
theorem C3_split_preserves_total (blocks : List TextBlock) (target : ℕ)
    (hb : blocks ≠ []) (ht : 1 ≤ target) (hne : ∀ b ∈ blocks, b.lines ≠ []) :
    ∃ out, split_blocks_by_textline_length blocks target = .ok out
      ∧ totalLines out = totalLines blocks := by
  obtain ⟨out, h1, h2, _, _⟩ := split_ok blocks target hne
  exact ⟨out, h1, h2⟩

/-- Witness for C3: one block with two lines, one split requested. -/
theorem C3_split_preserves_total_witness :
    ∃ out, split_blocks_by_textline_length
        [⟨[⟨⟨0, 0, 10, 1⟩, false⟩, ⟨⟨0, 1, 20, 2⟩, false⟩], false⟩] 1 = .ok out
      ∧ totalLines out
          = totalLines [⟨[⟨⟨0, 0, 10, 1⟩, false⟩, ⟨⟨0, 1, 20, 2⟩, false⟩], false⟩] :=
  C3_split_preserves_total [⟨[⟨⟨0, 0, 10, 1⟩, false⟩, ⟨⟨0, 1, 20, 2⟩, false⟩], false⟩] 1
    (by decide) (by decide) (by decide)

/-- C3 counterexample: an empty block flagged `is_terminated_by_line`
followed by a three-line block makes the cutoff branch run
`split_blocks[-1]` on an empty output list, raising `IndexError`; no list of
blocks is returned at all, so the line-count equality fails for this input. -/
theorem C3_counterexample :
    split_blocks_by_textline_length
        [⟨[], true⟩,
          ⟨[⟨⟨0, 0, 10, 1⟩, false⟩, ⟨⟨0, 1, 20, 2⟩, false⟩, ⟨⟨0, 2, 30, 3⟩, false⟩], false⟩] 1
      = .error .indexError := rfl

/-! ### Reconciler: claim C1 -/

/-- Step equation of `transform_groups` with at least two intervals. -/
theorem transform_groups_cons₂ (d : TextBlock → TextBlock → ℚ) (i1 i2 : Interval)
    (irest : List Interval) (blocks : List TextBlock) :
    transform_groups d (i1 :: i2 :: irest) blocks
      = match (if blocks.length < (i1 :: i2 :: irest).length then
            split_blocks_by_textline_length blocks ((i1 :: i2 :: irest).length - blocks.length)
          else .ok blocks) with
        | .error e => .error e
        | .ok blocks1 =>
          match (if blocks1.length > (i1 :: i2 :: irest).length then
              merge_blocks_by_vertical_spacing d blocks1
                (blocks1.length - (i1 :: i2 :: irest).length)
            else .ok blocks1) with
          | .error e => .error e
          | .ok blocks2 =>
            .ok (List.zipWith (fun di b => MatchResult.mk di b) (i1 :: i2 :: irest) blocks2) := rfl

/-- C1 amended: for more than one depth interval, provided every block is
non-empty and (when there are fewer blocks than intervals) the blocks carry
at least as many lines as there are intervals, `transform_groups` succeeds
and returns exactly one pair per interval. -/
theorem C1_transform_groups_count (d : TextBlock → TextBlock → ℚ)
    (depth_intervals : List Interval) (blocks : List TextBlock)
    (hn : 1 < depth_intervals.length)
    (hne : ∀ b ∈ blocks, b.lines ≠ [])
    (htot : blocks.length < depth_intervals.length →
      depth_intervals.length ≤ totalLines blocks) :
    ∃ out, transform_groups d depth_intervals blocks = .ok out
      ∧ out.length = depth_intervals.length := by
  match depth_intervals, hn with
  | i1 :: i2 :: irest, _ =>
  rcases Nat.lt_trichotomy blocks.length (i1 :: i2 :: irest).length with hm | hm | hm
  · obtain ⟨out1, hsplit, hsum, hdeg, hcut⟩ :=
      split_ok blocks ((i1 :: i2 :: irest).length - blocks.length) hne
    have helig := elig_length blocks hne
    have htot2 := htot hm
    have hout1 : out1.length = (i1 :: i2 :: irest).length := by
      by_cases hce : ((blocks.map (fun b => b.lines.dropLast.map (fun l => l.rect.x1))).flatten).length
          ≤ (i1 :: i2 :: irest).length - blocks.length
      · have h1 := hdeg hce
        omega
      · have h2 := hcut (by omega)
        omega
    refine ⟨List.zipWith (fun di b => MatchResult.mk di b) (i1 :: i2 :: irest) out1, ?_, ?_⟩
    · simp only [transform_groups_cons₂]
      rw [if_pos hm]
      rw [hsplit]
      show (match (if out1.length > (i1 :: i2 :: irest).length then
            merge_blocks_by_vertical_spacing d out1
              (out1.length - (i1 :: i2 :: irest).length)
          else .ok out1) with
        | .error e => (.error e : Except PyError (List MatchResult))
        | .ok blocks2 =>
          .ok (List.zipWith (fun di b => MatchResult.mk di b) (i1 :: i2 :: irest) blocks2))
        = .ok (List.zipWith (fun di b => MatchResult.mk di b) (i1 :: i2 :: irest) out1)
      rw [if_neg (by omega : ¬ out1.length > (i1 :: i2 :: irest).length)]
    · rw [List.length_zipWith, hout1, Nat.min_self]
  · refine ⟨List.zipWith (fun di b => MatchResult.mk di b) (i1 :: i2 :: irest) blocks, ?_, ?_⟩
    · simp only [transform_groups_cons₂]
      rw [if_neg (by omega : ¬ blocks.length < (i1 :: i2 :: irest).length)]
      show (match (if blocks.length > (i1 :: i2 :: irest).length then
            merge_blocks_by_vertical_spacing d blocks
              (blocks.length - (i1 :: i2 :: irest).length)
          else .ok blocks) with
        | .error e => (.error e : Except PyError (List MatchResult))
        | .ok blocks2 =>
          .ok (List.zipWith (fun di b => MatchResult.mk di b) (i1 :: i2 :: irest) blocks2))
        = .ok (List.zipWith (fun di b => MatchResult.mk di b) (i1 :: i2 :: irest) blocks)
      rw [if_neg (by omega : ¬ blocks.length > (i1 :: i2 :: irest).length)]
    · rw [List.length_zipWith, hm, Nat.min_self]
  · have hnge : 2 ≤ (i1 :: i2 :: irest).length := by
      simp only [List.length_cons]
      omega
    obtain ⟨out2, hmerge, hlen2⟩ := merge_ok_length d blocks
      (blocks.length - (i1 :: i2 :: irest).length)
      (by omega) (by omega) (by omega) hne
    refine ⟨List.zipWith (fun di b => MatchResult.mk di b) (i1 :: i2 :: irest) out2, ?_, ?_⟩
    · simp only [transform_groups_cons₂]
      rw [if_neg (by omega : ¬ blocks.length < (i1 :: i2 :: irest).length)]
      show (match (if blocks.length > (i1 :: i2 :: irest).length then
            merge_blocks_by_vertical_spacing d blocks
              (blocks.length - (i1 :: i2 :: irest).length)
          else .ok blocks) with
        | .error e => (.error e : Except PyError (List MatchResult))
        | .ok blocks2 =>
          .ok (List.zipWith (fun di b => MatchResult.mk di b) (i1 :: i2 :: irest) blocks2))
        = .ok (List.zipWith (fun di b => MatchResult.mk di b) (i1 :: i2 :: irest) out2)
      rw [if_pos (by omega : blocks.length > (i1 :: i2 :: irest).length)]
      rw [hmerge]
    · rw [List.length_zipWith]
      have : out2.length = (i1 :: i2 :: irest).length := by omega
      rw [this, Nat.min_self]

/-- Witness for C1: three intervals, one block with five lines; the split
produces three blocks and three pairs come back. -/
theorem C1_transform_groups_count_witness :
    ∃ out, transform_groups (fun _ _ => 0) [⟨none, none⟩, ⟨none, none⟩, ⟨none, none⟩]
        [⟨[⟨⟨0, 0, 10, 1⟩, false⟩, ⟨⟨0, 1, 20, 2⟩, false⟩, ⟨⟨0, 2, 30, 3⟩, false⟩,
            ⟨⟨0, 3, 40, 4⟩, false⟩, ⟨⟨0, 4, 50, 5⟩, false⟩], false⟩] = .ok out
      ∧ out.length = ([⟨none, none⟩, ⟨none, none⟩, ⟨none, none⟩] : List Interval).length :=
  C1_transform_groups_count (fun _ _ => 0) [⟨none, none⟩, ⟨none, none⟩, ⟨none, none⟩]
    [⟨[⟨⟨0, 0, 10, 1⟩, false⟩, ⟨⟨0, 1, 20, 2⟩, false⟩, ⟨⟨0, 2, 30, 3⟩, false⟩,
        ⟨⟨0, 3, 40, 4⟩, false⟩, ⟨⟨0, 4, 50, 5⟩, false⟩], false⟩]
    (by decide) (by decide) (by decide)

/-- C1 counterexample: two depth intervals against a single one-line block.
The degrade branch of the split returns a single block, no merge runs, and
the zip yields one pair, not two. -/
theorem C1_counterexample :
    (transform_groups (fun _ _ => 0) [⟨none, none⟩, ⟨none, none⟩]
        [⟨[⟨⟨0, 0, 10, 1⟩, false⟩], false⟩]).map List.length = .ok 1
    ∧ (Except.ok 1 : Except PyError ℕ) ≠ .ok 2 := by
  refine ⟨rfl, fun h => ?_⟩
  exact absurd (Except.ok.inj h) (by decide)

end Strat
